import Mathlib

/-!
# Fixed-window rate limiter: a shallow embedding of `fixed-window.go`

The Go package `ratelimit` implements a fixed-window admission limiter:
a struct `FixedWindow` with caller-supplied configuration fields
(`Duration`, `Unit`, `Limit`, all immutable after start) and mutable
state (`counter`, `ticker`, `stop`, `mu`).  This file embeds the
package's operations as pure Lean functions over an explicit state
record and proves / refutes the specification's claims about them.

Modelling conventions:

* Go `uint64` fields are `Nat`; where the source increments a `uint64`
  the embedding takes the result modulo `2 ^ 64`.
* `time.Duration` is a signed 64-bit count of nanoseconds; the
  conversion `time.Duration(fw.Duration)` and the subsequent
  multiplication wrap at 64 bits, modelled by `int64ofUInt64` and
  `wrap64` below.
* The pointer fields `mu : *sync.RWMutex` and `ticker : *time.Ticker`
  are modelled by the booleans `muSet` / `tickerSet` recording whether
  they are nil.  An operation that would dereference a nil pointer (or
  `panic`) returns `none`; a normal return is `some`.
* The background goroutine spawned by `Do` is not a field of the Go
  struct; `Do`'s result carries a boolean telling whether the
  `go fw.reset()` statement was reached, and a single firing of the
  reset loop's body is the state transformer `resetFire`.
-/

namespace Ratelimit

/-- The `FixedWindow` struct of `fixed-window.go`, fields in source
order.  `Duration`, `Unit`, `Limit` are the public configuration;
`counter` is the in-window accepted count; `tickerSet`, `stop`, `muSet`
model the `ticker`, `stop` and `mu` fields (`tickerSet` / `muSet` are
true exactly when the Go pointer is non-nil). -/
structure FixedWindow where
  Duration : Nat
  Unit : String
  Limit : Nat
  counter : Nat
  tickerSet : Bool
  stop : Bool
  muSet : Bool
deriving DecidableEq, Repr

namespace FixedWindow

/-- Error message returned by `Validate` when `Duration == 0`. -/
def errDuration : String := "duration must be greater than zero"

/-- Error message returned by `Validate` when `Limit == 0`. -/
def errLimit : String := "limit must be greater than zero"

/-- Error message returned by `Validate` for an unrecognized unit `u`
(`fmt.Errorf` with the offending value interpolated). -/
def errUnit (u : String) : String :=
  "expected one of them: 'second', 'minute', 'hour' but got '" ++ u ++ "'"

/-- Embeds `FixedWindow.Validate` (fixed-window.go lines 52-66): checks the
configuration fields in order and returns the first applicable error
message, or `none` (Go `nil`) when the configuration is valid. -/
def Validate (fw : FixedWindow) : Option String :=
  if fw.Duration = 0 then some errDuration
  else if fw.Limit = 0 then some errLimit
  else if fw.Unit ≠ "second" ∧ fw.Unit ≠ "minute" ∧ fw.Unit ≠ "hour" then
    some (errUnit fw.Unit)
  else none

/-- Embeds `FixedWindow.Accept` (fixed-window.go lines 32-42).  The source
first takes `fw.mu.Lock()`: on a nil mutex (the limiter was never
started by `Do`) this is a nil-pointer dereference, modelled as `none`.
Otherwise `accepted := !fw.stop && fw.counter != fw.Limit`; when
accepted, `fw.counter++` (a `uint64` increment, hence mod `2 ^ 64`).
Returns the accepted flag and the post state. -/
def Accept (fw : FixedWindow) : Option (Bool × FixedWindow) :=
  match fw.muSet with
  | false => none
  | true =>
    let accepted : Bool := !fw.stop && fw.counter != fw.Limit
    if accepted then
      some (true, { fw with counter := (fw.counter + 1) % 2 ^ 64 })
    else
      some (false, fw)

/-- Embeds `FixedWindow.Counter` (fixed-window.go lines 45-47): returns
`fw.counter`.  Note the source takes no lock here. -/
def Counter (fw : FixedWindow) : Nat := fw.counter

/-- Go's conversion `time.Duration(n)` of a `uint64` value `n` to the
signed 64-bit `time.Duration`: two's-complement reinterpretation. -/
def int64ofUInt64 (n : Nat) : Int :=
  if n % 2 ^ 64 < 2 ^ 63 then (n % 2 ^ 64 : Nat) else (n % 2 ^ 64 : Nat) - 2 ^ 64

/-- Signed 64-bit wrap-around of an integer, the result of any Go
`int64` arithmetic: the representative of `i` modulo `2 ^ 64` lying in
`[-2 ^ 63, 2 ^ 63)`. -/
def wrap64 (i : Int) : Int := (i + 2 ^ 63) % 2 ^ 64 - 2 ^ 63

/-- Embeds `FixedWindow.duration` (fixed-window.go lines 107-118): switches on
`fw.Unit`; the default branch panics (`none`), the three recognized
units return `time.Duration(fw.Duration)` times `time.Second`
(`10^9` ns), `time.Minute` (`6*10^10` ns) or `time.Hour`
(`3.6*10^12` ns), as wrapping `int64` products. -/
def duration (fw : FixedWindow) : Option Int :=
  match fw.Unit with
  | "second" => some (wrap64 (int64ofUInt64 fw.Duration * 1000000000))
  | "minute" => some (wrap64 (int64ofUInt64 fw.Duration * 60000000000))
  | "hour" => some (wrap64 (int64ofUInt64 fw.Duration * 3600000000000))
  | _ => none

/-- Embeds `FixedWindow.Do` (fixed-window.go lines 87-104).  Validates; on a
validation error returns it with the state untouched (`go fw.reset()`
is never reached, recorded by the trailing `false`).  Otherwise sets
`fw.mu = &sync.RWMutex{}`, then calls `time.NewTicker(fw.duration())`:
`duration`'s panic propagates (`none`), and `NewTicker` itself panics
on a non-positive interval (`none`).  On success the ticker is set and
the reset goroutine is spawned (trailing `true`). -/
def Do (fw : FixedWindow) : Option (Option String × FixedWindow × Bool) :=
  match Validate fw with
  | some err => some (some err, fw, false)
  | none =>
    match duration { fw with muSet := true } with
    | none => none
    | some d =>
      if d ≤ 0 then none
      else some (none, { fw with muSet := true, tickerSet := true }, true)

/-- Embeds `FixedWindow.Stop` (fixed-window.go lines 121-124): `fw.stop = true`
executes first, then `fw.ticker.Stop()` — which on a nil ticker (the
limiter was never started) is a nil-pointer dereference, modelled as
`none`.  The `ticker` field is untouched by the preceding write of
`stop`, so the nil test reads `fw.tickerSet` directly. -/
def Stop (fw : FixedWindow) : Option FixedWindow :=
  if fw.tickerSet then some { fw with stop := true } else none

/-- One firing of the reset loop's body in `FixedWindow.reset`
(fixed-window.go lines 127-132): after `<-fw.ticker.C` delivers a tick,
`fw.counter = 0`. -/
def resetFire (fw : FixedWindow) : FixedWindow := { fw with counter := 0 }

/-- Running `Accept` `n` times in a row, collecting the results; a
panic (`none`) aborts the sequence. -/
def acceptList : Nat → FixedWindow → List Bool × FixedWindow
  | 0, fw => ([], fw)
  | n + 1, fw =>
    match Accept fw with
    | none => ([], fw)
    | some (b, fw') =>
      let r := acceptList n fw'
      (b :: r.1, r.2)

/-- One observable step of a limiter instance: an `Accept` call, a
`Counter` read, a `Stop` call, one firing of the resetter, or a `Do`
call.  Panicking calls (`none`) produce no step. -/
inductive Step : FixedWindow → FixedWindow → Prop where
  | accept {fw fw' : FixedWindow} {b : Bool} :
      Accept fw = some (b, fw') → Step fw fw'
  | readCounter {fw : FixedWindow} : Step fw fw
  | stop {fw fw' : FixedWindow} : Stop fw = some fw' → Step fw fw'
  | fire {fw : FixedWindow} : Step fw (resetFire fw)
  | start {fw fw' : FixedWindow} {e : Option String} {b : Bool} :
      Do fw = some (e, fw', b) → Step fw fw'

/-- Reachability by any finite sequence of `Step`s. -/
def Reach : FixedWindow → FixedWindow → Prop :=
  Relation.ReflTransGen Step

/-- The limiter of the README / spec scenario, as constructed by
`FixedWindow{Duration: 5, Unit: "second", Limit: 2}` (all other fields
Go zero values: counter 0, nil ticker, stop false, nil mutex). -/
def fw52 : FixedWindow :=
  { Duration := 5, Unit := "second", Limit := 2
    counter := 0, tickerSet := false, stop := false, muSet := false }

/-- The limiter `fw52` after a successful `Do`: mutex and ticker set. -/
def fw52started : FixedWindow := { fw52 with muSet := true, tickerSet := true }

end FixedWindow

/-!
## Lock-discipline model (for the shared-state synchronization claim)

Each operation's reads and writes of the shared mutable fields
(`counter` and `stop`), together with whether the access happens while
`fw.mu` is held, transcribed from the source text of each function.
-/

/-- The shared mutable variables of a `FixedWindow` instance. -/
inductive SharedVar where
  | counter
  | stopFlag
deriving DecidableEq, Repr

/-- One access to a shared variable: which variable, whether it is a
write, and whether `fw.mu` is held at that program point. -/
structure Access where
  var : SharedVar
  isWrite : Bool
  underLock : Bool
deriving DecidableEq, Repr

/-- Accesses performed by `Accept` (lines 32-42): `fw.mu.Lock()` is
taken first, so the reads of `fw.stop` and `fw.counter` and the write
`fw.counter++` are all under the lock. -/
def acceptAccesses : List Access :=
  [⟨SharedVar.stopFlag, false, true⟩,
   ⟨SharedVar.counter, false, true⟩,
   ⟨SharedVar.counter, true, true⟩]

/-- Accesses performed by `Counter` (lines 45-47): a single read of
`fw.counter`, with no lock taken. -/
def counterAccesses : List Access :=
  [⟨SharedVar.counter, false, false⟩]

/-- Accesses performed by each iteration of the `reset` loop
(lines 127-132): the loop condition reads `fw.stop` and the body writes
`fw.counter = 0`, neither under any lock. -/
def resetAccesses : List Access :=
  [⟨SharedVar.stopFlag, false, false⟩,
   ⟨SharedVar.counter, true, false⟩]

/-- Accesses performed by `Stop` (lines 121-124): the write
`fw.stop = true`, with no lock taken. -/
def stopAccesses : List Access :=
  [⟨SharedVar.stopFlag, true, false⟩]

/-- All shared-state accesses of the four operations the spec names. -/
def allSharedAccesses : List Access :=
  acceptAccesses ++ counterAccesses ++ resetAccesses ++ stopAccesses

end Ratelimit

namespace Ratelimit

namespace FixedWindow

/-! ## Basic characterizations of the operations -/

/-- Calling `Accept` on a never-started limiter (nil mutex) panics. -/
lemma accept_nomutex {fw : FixedWindow} (h : fw.muSet = false) :
    Accept fw = none := by
  simp [Accept, h]

/-- Calling `Accept` on a stopped limiter rejects and leaves the state alone. -/
lemma accept_stopped {fw : FixedWindow} (hmu : fw.muSet = true)
    (h : fw.stop = true) : Accept fw = some (false, fw) := by
  simp [Accept, hmu, h]

/-- Calling `Accept` at a full window (`counter = Limit`) rejects and leaves the
state alone. -/
lemma accept_full {fw : FixedWindow} (hmu : fw.muSet = true)
    (h : fw.counter = fw.Limit) : Accept fw = some (false, fw) := by
  simp [Accept, hmu, h]

/-- Calling `Accept` on a running, non-full limiter accepts and increments the
counter. -/
lemma accept_ok {fw : FixedWindow} (hmu : fw.muSet = true)
    (hstop : fw.stop = false) (h : fw.counter ≠ fw.Limit) :
    Accept fw = some (true, { fw with counter := (fw.counter + 1) % 2 ^ 64 }) := by
  simp [Accept, hmu, hstop, h]

/-- Inversion for `Accept`: any non-panicking call either rejects with
the state unchanged or accepts, incrementing a non-full counter. -/
lemma accept_cases {fw fw' : FixedWindow} {b : Bool}
    (h : Accept fw = some (b, fw')) :
    fw.muSet = true ∧
      ((b = false ∧ fw' = fw) ∨
        (b = true ∧ fw.counter ≠ fw.Limit ∧
          fw' = { fw with counter := (fw.counter + 1) % 2 ^ 64 })) := by
  by_cases hmu : fw.muSet = true
  · refine ⟨hmu, ?_⟩
    by_cases hstop : fw.stop = true
    · rw [accept_stopped hmu hstop] at h
      cases h
      exact Or.inl ⟨rfl, rfl⟩
    · rw [Bool.not_eq_true] at hstop
      by_cases hfull : fw.counter = fw.Limit
      · rw [accept_full hmu hfull] at h
        cases h
        exact Or.inl ⟨rfl, rfl⟩
      · rw [accept_ok hmu hstop hfull] at h
        cases h
        exact Or.inr ⟨rfl, hfull, rfl⟩
  · rw [Bool.not_eq_true] at hmu
    rw [accept_nomutex hmu] at h
    cases h

/-- Inversion for `Stop`: a non-panicking call only sets the stop flag. -/
lemma stop_cases {fw fw' : FixedWindow} (h : Stop fw = some fw') :
    fw' = { fw with stop := true } := by
  unfold Stop at h
  split at h
  · cases h; rfl
  · cases h

/-- A non-panicking `Stop` requires a non-nil ticker. -/
lemma stop_tickerSet {fw fw' : FixedWindow} (h : Stop fw = some fw') :
    fw.tickerSet = true := by
  unfold Stop at h
  split at h
  · assumption
  · cases h

/-- Inversion for `Do`: a non-panicking call either returns the
validation error with the state untouched, or succeeds having set the
mutex and the ticker. -/
lemma do_cases {fw fw' : FixedWindow} {e : Option String} {b : Bool}
    (h : Do fw = some (e, fw', b)) :
    (∃ msg, e = some msg ∧ fw' = fw ∧ b = false) ∨
      (e = none ∧ fw' = { fw with muSet := true, tickerSet := true } ∧ b = true) := by
  unfold Do at h
  cases hv : Validate fw with
  | some msg =>
    rw [hv] at h
    cases h
    exact Or.inl ⟨msg, rfl, rfl, rfl⟩
  | none =>
    rw [hv] at h
    simp only at h
    cases hd : duration { fw with muSet := true } with
    | none => rw [hd] at h; cases h
    | some d =>
      rw [hd] at h
      dsimp only at h
      by_cases hd0 : d ≤ 0
      · rw [if_pos hd0] at h; cases h
      · rw [if_neg hd0] at h
        cases h
        exact Or.inr ⟨rfl, rfl, rfl⟩

/-- Signed 64-bit wrap is the identity on `[0, 2^63)`. -/
lemma wrap64_eq {i : Int} (h0 : 0 ≤ i) (h1 : i < 2 ^ 63) : wrap64 i = i := by
  unfold wrap64
  rw [Int.emod_eq_of_lt (by omega) (by omega)]
  omega

/-- Success condition of `Validate`: exactly positive duration, positive limit
and a recognized unit. -/
lemma validate_none_iff (fw : FixedWindow) :
    Validate fw = none ↔
      fw.Duration ≠ 0 ∧ fw.Limit ≠ 0 ∧
        (fw.Unit = "second" ∨ fw.Unit = "minute" ∨ fw.Unit = "hour") := by
  unfold Validate
  split
  · simp_all
  · split
    · simp_all
    · split
      · simp_all
      · rename_i h1 h2 h3
        simp only [not_and_or, not_not] at h3
        simp [h1, h2]
        tauto

end FixedWindow

end Ratelimit

namespace Ratelimit

namespace FixedWindow

/-! ## Preservation lemmas along the step relation -/

/-- Every step preserves the bound `counter ≤ Limit` (together with the
machine-width bound on `Limit` that rules out wrap-around of the
`uint64` increment). -/
lemma step_inv {s t : FixedWindow} (h : Step s t)
    (hinv : s.counter ≤ s.Limit ∧ s.Limit < 2 ^ 64) :
    t.counter ≤ t.Limit ∧ t.Limit < 2 ^ 64 := by
  cases h with
  | accept hA =>
    rcases accept_cases hA with ⟨-, hc⟩
    rcases hc with ⟨-, rfl⟩ | ⟨-, hne, rfl⟩
    · exact hinv
    · refine ⟨?_, hinv.2⟩
      have hlt : s.counter < s.Limit := lt_of_le_of_ne hinv.1 hne
      have hL : s.Limit < 2 ^ 64 := hinv.2
      show (s.counter + 1) % 2 ^ 64 ≤ s.Limit
      omega
  | readCounter => exact hinv
  | stop hS => rw [stop_cases hS]; exact hinv
  | fire => exact ⟨Nat.zero_le _, hinv.2⟩
  | start hD =>
    rcases do_cases hD with ⟨msg, -, rfl, -⟩ | ⟨-, rfl, -⟩
    · exact hinv
    · exact hinv

/-- Every step preserves a set stop flag and a set mutex: no operation
of the source ever clears `stop` or `mu`. -/
lemma step_mono {s t : FixedWindow} (h : Step s t) :
    (s.stop = true → t.stop = true) ∧ (s.muSet = true → t.muSet = true) := by
  cases h with
  | accept hA =>
    rcases accept_cases hA with ⟨-, hc⟩
    rcases hc with ⟨-, rfl⟩ | ⟨-, -, rfl⟩ <;> exact ⟨id, id⟩
  | readCounter => exact ⟨id, id⟩
  | stop hS => rw [stop_cases hS]; exact ⟨fun _ => rfl, id⟩
  | fire => exact ⟨id, id⟩
  | start hD =>
    rcases do_cases hD with ⟨msg, -, rfl, -⟩ | ⟨-, rfl, -⟩
    · exact ⟨id, id⟩
    · exact ⟨id, fun _ => rfl⟩

/-- Along any reachable sequence, a set stop flag and a set mutex stay
set. -/
lemma reach_mono {s t : FixedWindow} (h : Reach s t) :
    (s.stop = true → t.stop = true) ∧ (s.muSet = true → t.muSet = true) := by
  induction h with
  | refl => exact ⟨id, id⟩
  | tail _ hstep ih =>
    exact ⟨fun hs => (step_mono hstep).1 (ih.1 hs),
           fun hm => (step_mono hstep).2 (ih.2 hm)⟩

/-! ## The `acceptList` closed form -/

/-- Unfolding lemma for one round of `acceptList`. -/
lemma acceptList_succ (n : Nat) (fw fw' : FixedWindow) (b : Bool)
    (h : Accept fw = some (b, fw')) :
    acceptList (n + 1) fw = (b :: (acceptList n fw').1, (acceptList n fw').2) := by
  simp only [acceptList]
  rw [h]

/-- Results of `n` consecutive `Accept` calls on a running limiter: the
first `Limit - counter` calls accept, the rest reject. -/
lemma acceptList_fst (n : Nat) (fw : FixedWindow) (hmu : fw.muSet = true)
    (hstop : fw.stop = false) (hcl : fw.counter ≤ fw.Limit)
    (hL : fw.Limit < 2 ^ 64) :
    (acceptList n fw).1 =
      List.replicate (min n (fw.Limit - fw.counter)) true
        ++ List.replicate (n - (fw.Limit - fw.counter)) false := by
  induction n generalizing fw with
  | zero => simp [acceptList]
  | succ n ih =>
    by_cases hfull : fw.counter = fw.Limit
    · rw [acceptList_succ n fw fw false (accept_full hmu hfull)]
      have h0 : fw.Limit - fw.counter = 0 := by omega
      rw [ih fw hmu hstop hcl hL]
      rw [h0]
      simp [List.replicate_succ]
    · have hlt : fw.counter < fw.Limit := lt_of_le_of_ne hcl hfull
      have hmod : (fw.counter + 1) % 2 ^ 64 = fw.counter + 1 :=
        Nat.mod_eq_of_lt (by omega)
      rw [acceptList_succ n fw { fw with counter := (fw.counter + 1) % 2 ^ 64 }
            true (accept_ok hmu hstop hfull)]
      rw [ih { fw with counter := (fw.counter + 1) % 2 ^ 64 } hmu hstop
            (by show (fw.counter + 1) % 2 ^ 64 ≤ fw.Limit; omega) hL]
      show true :: _ = _
      rw [show ({ fw with counter := (fw.counter + 1) % 2 ^ 64 } : FixedWindow).counter
            = fw.counter + 1 from hmod]
      have h1 : min (n + 1) (fw.Limit - fw.counter)
          = min n (fw.Limit - (fw.counter + 1)) + 1 := by omega
      have h2 : (n + 1) - (fw.Limit - fw.counter)
          = n - (fw.Limit - (fw.counter + 1)) := by omega
      rw [h1, h2, List.replicate_succ, List.cons_append]

/-- Final counter after `n` consecutive `Accept` calls on a running
limiter: the counter saturates at `Limit`. -/
lemma acceptList_counter (n : Nat) (fw : FixedWindow) (hmu : fw.muSet = true)
    (hstop : fw.stop = false) (hcl : fw.counter ≤ fw.Limit)
    (hL : fw.Limit < 2 ^ 64) :
    (acceptList n fw).2.counter = min (fw.counter + n) fw.Limit := by
  induction n generalizing fw with
  | zero =>
    show fw.counter = min (fw.counter + 0) fw.Limit
    omega
  | succ n ih =>
    by_cases hfull : fw.counter = fw.Limit
    · rw [acceptList_succ n fw fw false (accept_full hmu hfull)]
      show (acceptList n fw).2.counter = min (fw.counter + (n + 1)) fw.Limit
      rw [ih fw hmu hstop hcl hL]
      omega
    · have hlt : fw.counter < fw.Limit := lt_of_le_of_ne hcl hfull
      rw [acceptList_succ n fw { fw with counter := (fw.counter + 1) % 2 ^ 64 }
            true (accept_ok hmu hstop hfull)]
      show (acceptList n { fw with counter := (fw.counter + 1) % 2 ^ 64 }).2.counter
          = min (fw.counter + (n + 1)) fw.Limit
      rw [ih { fw with counter := (fw.counter + 1) % 2 ^ 64 } hmu hstop
            (by show (fw.counter + 1) % 2 ^ 64 ≤ fw.Limit; omega) hL]
      show min ((fw.counter + 1) % 2 ^ 64 + n) fw.Limit
          = min (fw.counter + (n + 1)) fw.Limit
      omega

end FixedWindow

end Ratelimit

namespace Ratelimit

namespace FixedWindow

/-! ## Error-message identifiability -/

/-- Length of the invalid-unit message in terms of the unit's length. -/
lemma errUnit_length (u : String) : (errUnit u).length = u.length + 59 := by
  rw [errUnit, String.length_append, String.length_append]
  have h1 : ("expected one of them: 'second', 'minute', 'hour' but got '" : String).length
      = 58 := rfl
  have h2 : ("'" : String).length = 1 := rfl
  omega

/-- The invalid-unit message never collides with the duration message. -/
lemma errUnit_ne_errDuration (u : String) : errUnit u ≠ errDuration := by
  intro h
  have hl := congrArg String.length h
  rw [errUnit_length] at hl
  have h34 : (errDuration : String).length = 34 := rfl
  omega

/-- The invalid-unit message never collides with the limit message. -/
lemma errUnit_ne_errLimit (u : String) : errUnit u ≠ errLimit := by
  intro h
  have hl := congrArg String.length h
  rw [errUnit_length] at hl
  have h31 : (errLimit : String).length = 31 := rfl
  omega

/-- Validation only reads the three configuration fields. -/
lemma validate_config_only (fw : FixedWindow) (c : Nat) (t st m : Bool) :
    Validate { fw with counter := c, tickerSet := t, stop := st, muSet := m }
      = Validate fw := rfl

/-- The period computation only reads the configuration fields. -/
lemma duration_config_only (fw : FixedWindow) (c : Nat) (t st m : Bool) :
    duration { fw with counter := c, tickerSet := t, stop := st, muSet := m }
      = duration fw := rfl

/-! ## Claim theorems -/

/-- C3: `Validate` is a pure function of the three configuration
fields; it fails exactly when `duration = 0`, `limit = 0`, or the unit
is not one of "second"/"minute"/"hour"; the three failure cases return
distinct, identifiable error values (`errDuration`, `errLimit`,
`errUnit`); the invalid-unit message contains the offending unit value;
and the configuration (duration 5, unit "second", limit 2) is
accepted. -/
theorem validate_spec :
    (∀ (fw : FixedWindow) (c : Nat) (t st m : Bool),
      Validate { fw with counter := c, tickerSet := t, stop := st, muSet := m }
        = Validate fw) ∧
    (∀ fw : FixedWindow,
      (Validate fw = none ↔
        fw.Duration ≠ 0 ∧ fw.Limit ≠ 0 ∧
          (fw.Unit = "second" ∨ fw.Unit = "minute" ∨ fw.Unit = "hour")) ∧
      (fw.Duration = 0 → Validate fw = some errDuration) ∧
      (fw.Duration ≠ 0 → fw.Limit = 0 → Validate fw = some errLimit) ∧
      (fw.Duration ≠ 0 → fw.Limit ≠ 0 → fw.Unit ≠ "second" →
        fw.Unit ≠ "minute" → fw.Unit ≠ "hour" →
        Validate fw = some (errUnit fw.Unit))) ∧
    errDuration ≠ errLimit ∧
    (∀ u : String, errUnit u ≠ errDuration ∧ errUnit u ≠ errLimit ∧
      ∃ pre post : String, errUnit u = pre ++ u ++ post) ∧
    Validate fw52 = none := by
  refine ⟨validate_config_only, ?_, by decide, ?_, rfl⟩
  · intro fw
    refine ⟨validate_none_iff fw, ?_, ?_, ?_⟩
    · intro h
      unfold Validate
      rw [if_pos h]
    · intro h1 h2
      unfold Validate
      rw [if_neg h1, if_pos h2]
    · intro h1 h2 h3 h4 h5
      unfold Validate
      rw [if_neg h1, if_neg h2, if_pos ⟨h3, h4, h5⟩]
  · intro u
    exact ⟨errUnit_ne_errDuration u, errUnit_ne_errLimit u,
      "expected one of them: 'second', 'minute', 'hour' but got '", "'", rfl⟩

/-- Witness for C3 at the spec's three rejected configurations and the
accepted one. -/
theorem validate_spec_witness :
    Validate { fw52 with Duration := 0 } = some errDuration ∧
    Validate { fw52 with Limit := 0 } = some errLimit ∧
    Validate { fw52 with Unit := "day" } = some (errUnit "day") ∧
    errUnit "day" ≠ errDuration :=
  ⟨(validate_spec.2.1 { fw52 with Duration := 0 }).2.1 rfl,
   (validate_spec.2.1 { fw52 with Limit := 0 }).2.2.1 (by decide) rfl,
   (validate_spec.2.1 { fw52 with Unit := "day" }).2.2.2
     (by decide) (by decide) (by decide) (by decide) (by decide),
   (validate_spec.2.2.2.1 "day").1⟩

/-- C4: whenever `Validate` fails, `Do` returns that very error, the
whole state record is unchanged (counter, stop flag, mutex and ticker
fields included), and the reset goroutine is not spawned. -/
theorem do_propagates_validation_error (fw : FixedWindow) (e : String)
    (h : Validate fw = some e) : Do fw = some (some e, fw, false) := by
  unfold Do
  rw [h]

/-- Witness for C4 at the zero-duration configuration. -/
theorem do_propagates_validation_error_witness :
    Validate { fw52 with Duration := 0 } = some errDuration ∧
    Do { fw52 with Duration := 0 }
      = some (some errDuration, { fw52 with Duration := 0 }, false) :=
  ⟨rfl, do_propagates_validation_error { fw52 with Duration := 0 } errDuration rfl⟩

/-- C7 (code bug): `Stop` on the uninitialized limiter of the README
scenario (`Do` never called, so `ticker` is nil) panics (`none`)
instead of being a safe no-op; `Stop` repeated on an already-stopped
*started* limiter is indeed a benign repeat. -/
theorem stop_uninitialized_panics :
    Stop fw52 = none ∧
    Stop { fw52started with stop := true } = some { fw52started with stop := true } :=
  ⟨rfl, rfl⟩

/-- C8: on every configuration accepted by `Validate`, the period
computation `duration` never reaches its unsupported-unit panic
branch. -/
theorem duration_no_panic_after_validate (fw : FixedWindow)
    (h : Validate fw = none) : duration fw ≠ none := by
  rcases ((validate_none_iff fw).mp h).2.2 with hu | hu | hu <;>
    · unfold duration
      rw [hu]
      simp

/-- Witness for C8 at the (5, "second", 2) configuration. -/
theorem duration_no_panic_after_validate_witness :
    Validate fw52 = none ∧ duration fw52 ≠ none :=
  ⟨rfl, duration_no_panic_after_validate fw52 rfl⟩

/-- C9 (code bug): not every access to the shared mutable state goes
through the mutex.  Only `Accept`'s accesses are under `fw.mu`;
`Counter`'s read of `counter`, the resetter's read of `stop` and write
of `counter`, and `Stop`'s write of `stop` all happen with no lock
held, so the one-exclusion-mechanism policy is violated in the
source. -/
theorem shared_state_not_all_under_lock :
    (acceptAccesses.all fun a => a.underLock) = true ∧
    (counterAccesses.all fun a => a.underLock) = false ∧
    (resetAccesses.all fun a => a.underLock) = false ∧
    (stopAccesses.all fun a => a.underLock) = false ∧
    (allSharedAccesses.all fun a => a.underLock) = false := by
  decide

end FixedWindow

end Ratelimit

namespace Ratelimit

namespace FixedWindow

/-- Evaluation of `duration` when the unit is "second". -/
lemma duration_second {fw : FixedWindow} (h : fw.Unit = "second") :
    duration fw = some (wrap64 (int64ofUInt64 fw.Duration * 1000000000)) := by
  unfold duration
  rw [h]
  rfl

/-- Evaluation of `duration` when the unit is "minute". -/
lemma duration_minute {fw : FixedWindow} (h : fw.Unit = "minute") :
    duration fw = some (wrap64 (int64ofUInt64 fw.Duration * 60000000000)) := by
  unfold duration
  rw [h]
  rfl

/-- Evaluation of `duration` when the unit is "hour". -/
lemma duration_hour {fw : FixedWindow} (h : fw.Unit = "hour") :
    duration fw = some (wrap64 (int64ofUInt64 fw.Duration * 3600000000000)) := by
  unfold duration
  rw [h]
  rfl

/-- The two's-complement reinterpretation is the identity below
`2 ^ 63`. -/
lemma int64ofUInt64_eq {n : Nat} (h : n < 2 ^ 63) :
    int64ofUInt64 n = (n : Int) := by
  unfold int64ofUInt64
  rw [Nat.mod_eq_of_lt (by omega), if_pos h]

/-- Immediately after a reset firing, a running limiter with a positive
limit accepts the next request: the counter reads 0 after the reset and
1 after the accepted call. -/
lemma accept_after_reset {fw : FixedWindow} (hmu : fw.muSet = true)
    (hstop : fw.stop = false) (hpos : 0 < fw.Limit) :
    Counter (resetFire fw) = 0 ∧
    Accept (resetFire fw) = some (true, { fw with counter := 1 }) ∧
    Counter { fw with counter := 1 } = 1 := by
  refine ⟨rfl, ?_, rfl⟩
  have hne : (resetFire fw).counter ≠ (resetFire fw).Limit := by
    show (0 : Nat) ≠ fw.Limit
    omega
  exact @accept_ok (resetFire fw) hmu hstop hne

/-- C1 counterexample: on the never-started limiter of the README
scenario (`Do` never called, nil mutex), `Accept` does not return
`false` leaving the counter unchanged — it nil-panics. -/
theorem accept_unstarted_cx :
    Accept fw52 = none ∧ Accept fw52 ≠ some (false, fw52) := by
  decide

/-- C1 (amended): on a limiter that was never started (nil mutex),
`Accept` panics rather than returning `false`; on a limiter whose
mutex is initialized, a single `Accept` call returns `false` and
leaves the state (counter included) unchanged when the stop flag is
set or the counter equals the limit, otherwise it increments the
counter by exactly one and returns `true`; and after a non-panicking
`Stop()`, every `Accept` on any subsequently reachable state returns
`false` regardless of the counter value. -/
theorem accept_spec_amended (fw : FixedWindow) :
    (fw.muSet = false → Accept fw = none) ∧
    (fw.muSet = true →
      ((fw.stop = true ∨ fw.counter = fw.Limit) → Accept fw = some (false, fw)) ∧
      (fw.stop = false → fw.counter ≠ fw.Limit →
        Accept fw = some (true, { fw with counter := (fw.counter + 1) % 2 ^ 64 })) ∧
      (∀ fw' fw'' : FixedWindow, Stop fw = some fw' → Reach fw' fw'' →
        Accept fw'' = some (false, fw''))) := by
  refine ⟨accept_nomutex, ?_⟩
  intro hmu
  refine ⟨?_, ?_, ?_⟩
  · rintro (hs | hc)
    · exact accept_stopped hmu hs
    · exact accept_full hmu hc
  · intro hs hc
    exact accept_ok hmu hs hc
  · intro fw' fw'' hstop hreach
    have h1 : fw'.stop = true := by rw [stop_cases hstop]
    have h2 : fw'.muSet = true := by
      rw [stop_cases hstop]
      exact hmu
    have h3 := reach_mono hreach
    exact accept_stopped (h3.2 h2) (h3.1 h1)

/-- Witness for C1 at the started README limiter: one accepted call,
and rejection at every state reachable after `Stop`. -/
theorem accept_spec_amended_witness :
    fw52started.muSet = true ∧
    Accept fw52started = some (true, { fw52started with counter := 1 }) ∧
    Accept { fw52started with stop := true }
      = some (false, { fw52started with stop := true }) := by
  refine ⟨rfl, ?_, ?_⟩
  · exact ((accept_spec_amended fw52started).2 rfl).2.1 rfl (by decide)
  · exact ((accept_spec_amended fw52started).2 rfl).2.2
      { fw52started with stop := true } { fw52started with stop := true }
      rfl Relation.ReflTransGen.refl

/-- C2: in every state reachable from an initial state with counter 0
(and a `uint64` limit) by any sequence of `Accept`, `Counter`, `Stop`,
resetter-firing and `Do` steps, the counter is non-negative and never
exceeds the limit. -/
theorem counter_invariant (s0 s : FixedWindow) (h0 : s0.counter = 0)
    (hL : s0.Limit < 2 ^ 64) (hr : Reach s0 s) :
    0 ≤ s.counter ∧ s.counter ≤ s.Limit := by
  have hr' : Relation.ReflTransGen Step s0 s := hr
  clear hr
  have key : s.counter ≤ s.Limit ∧ s.Limit < 2 ^ 64 := by
    induction hr' with
    | refl => exact ⟨by omega, hL⟩
    | tail _ hstep ih => exact step_inv hstep ih
  exact ⟨Nat.zero_le _, key.1⟩

/-- Witness for C2 along the concrete chain `Do`, then one accepted
call. -/
theorem counter_invariant_witness :
    (fw52.counter = 0 ∧ fw52.Limit < 2 ^ 64 ∧
      Reach fw52 { fw52started with counter := 1 }) ∧
    0 ≤ ({ fw52started with counter := 1 } : FixedWindow).counter ∧
    ({ fw52started with counter := 1 } : FixedWindow).counter
      ≤ ({ fw52started with counter := 1 } : FixedWindow).Limit := by
  have hchain : Reach fw52 { fw52started with counter := 1 } :=
    Relation.ReflTransGen.tail
      (Relation.ReflTransGen.single (@Step.start fw52 fw52started none true rfl))
      (@Step.accept fw52started { fw52started with counter := 1 } true rfl)
  exact ⟨⟨rfl, by decide, hchain⟩,
    counter_invariant fw52 { fw52started with counter := 1 } rfl (by decide) hchain⟩

/-- C5 counterexample: Duration = 2^55 with unit "second" passes
`Validate`, yet the computed reset period is 0 ns — the `int64`
product 2^55 * 10^9 wraps to 0 — not the claimed elapsed-time
equivalent of 2^55 seconds. -/
theorem reset_period_overflow_cx :
    Validate { fw52 with Duration := 36028797018963968 } = none ∧
    duration { fw52 with Duration := 36028797018963968 } = some 0 ∧
    (36028797018963968 * 1000000000 : Int) ≠ 0 := by
  refine ⟨rfl, rfl, by decide⟩

/-- C5 (amended): whenever the product duration x unit-multiplier fits
below `2 ^ 63` nanoseconds (no `int64` overflow), the reset period
equals exactly duration x 1 second / 1 minute / 1 hour; each resetter
firing sets the counter to 0; and after a firing the next `Accept` on
a running limiter with positive limit returns `true`, `Counter`
reading 0 after the reset and 1 after the accepted call. -/
theorem reset_period_and_reset_spec (fw : FixedWindow) (mult : Nat)
    (hu : (fw.Unit = "second" ∧ mult = 1000000000) ∨
      (fw.Unit = "minute" ∧ mult = 60000000000) ∨
      (fw.Unit = "hour" ∧ mult = 3600000000000))
    (hof : fw.Duration * mult < 2 ^ 63) :
    duration fw = some ((fw.Duration : Int) * (mult : Int)) ∧
    (resetFire fw).counter = 0 ∧
    (fw.muSet = true → fw.stop = false → 0 < fw.Limit →
      Counter (resetFire fw) = 0 ∧
      Accept (resetFire fw) = some (true, { fw with counter := 1 }) ∧
      Counter { fw with counter := 1 } = 1) := by
  refine ⟨?_, rfl, fun hmu hstop hpos => accept_after_reset hmu hstop hpos⟩
  rcases hu with ⟨hu, rfl⟩ | ⟨hu, rfl⟩ | ⟨hu, rfl⟩
  · have hD : fw.Duration < 2 ^ 63 := by omega
    rw [duration_second hu, int64ofUInt64_eq hD,
      wrap64_eq (by positivity) (by exact_mod_cast hof)]
    norm_num
  · have hD : fw.Duration < 2 ^ 63 := by omega
    rw [duration_minute hu, int64ofUInt64_eq hD,
      wrap64_eq (by positivity) (by exact_mod_cast hof)]
    norm_num
  · have hD : fw.Duration < 2 ^ 63 := by omega
    rw [duration_hour hu, int64ofUInt64_eq hD,
      wrap64_eq (by positivity) (by exact_mod_cast hof)]
    norm_num

/-- Witness for C5 at the started README limiter. -/
theorem reset_period_and_reset_spec_witness :
    fw52started.Duration * 1000000000 < 2 ^ 63 ∧
    duration fw52started = some 5000000000 ∧
    Accept (resetFire fw52started) = some (true, { fw52started with counter := 1 }) := by
  have h := reset_period_and_reset_spec fw52started 1000000000
    (Or.inl ⟨rfl, rfl⟩) (by decide)
  exact ⟨by decide, by simpa using h.1, (h.2.2 rfl rfl (by decide)).2.1⟩

/-- C6: on a freshly started limiter (counter 0), `n` consecutive
`Accept` calls with no reset in between accept exactly the first
`min n Limit` and reject the rest, so the number of `true` results
never exceeds the limit; the counter after `k` calls reads
`min k Limit` (hence `k` after `k` accepted calls); concretely the
(5, "second", 2) limiter answers [true, true, false, false, false] to
five immediate calls. -/
theorem accept_sequence_spec (fw : FixedWindow) (n : Nat)
    (hmu : fw.muSet = true) (hstop : fw.stop = false)
    (hc : fw.counter = 0) (hL : fw.Limit < 2 ^ 64) :
    (acceptList n fw).1 =
      List.replicate (min n fw.Limit) true ++ List.replicate (n - fw.Limit) false ∧
    ((acceptList n fw).1).count true = min n fw.Limit ∧
    (∀ k : Nat, Counter (acceptList k fw).2 = min k fw.Limit) ∧
    (acceptList 5 fw52started).1 = [true, true, false, false, false] := by
  have hcl : fw.counter ≤ fw.Limit := by omega
  have h1 : (acceptList n fw).1 =
      List.replicate (min n fw.Limit) true ++ List.replicate (n - fw.Limit) false := by
    have h := acceptList_fst n fw hmu hstop hcl hL
    rw [hc, Nat.sub_zero] at h
    exact h
  refine ⟨h1, ?_, ?_, rfl⟩
  · rw [h1]
    simp [List.count_replicate]
  · intro k
    have h := acceptList_counter k fw hmu hstop hcl hL
    rw [hc, Nat.zero_add] at h
    exact h

/-- Witness for C6 at the started README limiter with five calls. -/
theorem accept_sequence_spec_witness :
    (fw52started.muSet = true ∧ fw52started.stop = false ∧
      fw52started.counter = 0 ∧ fw52started.Limit < 2 ^ 64) ∧
    (acceptList 5 fw52started).1.count true = min 5 fw52started.Limit :=
  ⟨⟨rfl, rfl, rfl, by decide⟩,
    (accept_sequence_spec fw52started 5 rfl rfl rfl (by decide)).2.1⟩

/-- The success shape of `Do`: with a valid configuration and a
positive computed period, `Do` sets the mutex and ticker and spawns
the resetter. -/
lemma do_eq_of (fw : FixedWindow) (d : Int) (hv : Validate fw = none)
    (hd : duration { fw with muSet := true } = some d) (hdpos : ¬d ≤ 0) :
    Do fw = some (none, { fw with muSet := true, tickerSet := true }, true) := by
  unfold Do
  rw [hv]
  dsimp only
  rw [hd]
  dsimp only
  rw [if_neg hdpos]

/-- C10: a `Do` that succeeded can be repeated: the second call
succeeds again (it never rejects a re-start), replaces the mutex and
ticker fields, and spawns another resetter; more generally a valid
configuration makes `Do` succeed whatever the mutable state (counter,
stop flag, mutex, ticker) currently holds. -/
theorem do_restart_succeeds (fw fw' : FixedWindow)
    (h : Do fw = some (none, fw', true)) :
    fw'.muSet = true ∧ fw'.tickerSet = true ∧
    Do fw' = some (none, { fw' with muSet := true, tickerSet := true }, true) ∧
    (∀ (c : Nat) (t st m : Bool),
      Do { fw with counter := c, tickerSet := t, stop := st, muSet := m }
        = some (none,
            { fw with counter := c, tickerSet := true, stop := st, muSet := true },
            true)) := by
  have hv : Validate fw = none := by
    cases hval : Validate fw with
    | none => rfl
    | some e =>
      unfold Do at h
      rw [hval] at h
      simp at h
  have hd' : ∃ d, duration { fw with muSet := true } = some d ∧ ¬d ≤ 0 := by
    unfold Do at h
    rw [hv] at h
    cases hd : duration { fw with muSet := true } with
    | none => rw [hd] at h; cases h
    | some d =>
      rw [hd] at h
      dsimp only at h
      by_cases h0 : d ≤ 0
      · rw [if_pos h0] at h; cases h
      · exact ⟨d, rfl, h0⟩
  obtain ⟨d, hd, hdpos⟩ := hd'
  have hfw' : fw' = { fw with muSet := true, tickerSet := true } := by
    rcases do_cases h with ⟨msg, hm, -, -⟩ | ⟨-, hfw, -⟩
    · cases hm
    · exact hfw
  subst hfw'
  refine ⟨rfl, rfl, ?_, ?_⟩
  · have hv2 : Validate { fw with muSet := true, tickerSet := true } = none := hv
    have hd2 : duration { { fw with muSet := true, tickerSet := true }
        with muSet := true } = some d := hd
    exact do_eq_of { fw with muSet := true, tickerSet := true } d hv2 hd2 hdpos
  · intro c t st m
    have hv3 : Validate { fw with counter := c, tickerSet := t, stop := st, muSet := m }
        = none := hv
    have hd3 : duration { { fw with counter := c, tickerSet := t, stop := st, muSet := m }
        with muSet := true } = some d := hd
    exact do_eq_of { fw with counter := c, tickerSet := t, stop := st, muSet := m }
      d hv3 hd3 hdpos

/-- Witness for C10: starting the README limiter twice succeeds both
times. -/
theorem do_restart_succeeds_witness :
    Do fw52 = some (none, fw52started, true) ∧
    Do fw52started
      = some (none, { fw52started with muSet := true, tickerSet := true }, true) :=
  ⟨rfl, (do_restart_succeeds fw52 fw52started rfl).2.2.1⟩

end FixedWindow

end Ratelimit
